import Mathlib

/-!
A shallow embedding of `workouts/verify_csv_mapping.py`: a one-shot script that
loads an exercise-id mapping from `exercises.json`, scans `WorkoutExport.csv`,
and prints a report of mapped/unmapped exercise names and workout dates.

Python dictionaries are modelled as association lists with unique keys kept in
insertion order (`dictInsert` overwrites in place); Python sets as `Finset`;
fallible operations (`KeyError` on a missing CSV column, `ZeroDivisionError`
in the report) as `Except` or an explicit failure flag.
-/

/-- Model of Python `str.lower`: lower-case every character. -/
def pyLower (s : String) : String := ⟨s.data.map Char.toLower⟩

/-- Model of Python `str.strip`: drop whitespace from both ends. -/
def pyStrip (s : String) : String :=
  ⟨((s.data.dropWhile Char.isWhitespace).reverse.dropWhile Char.isWhitespace).reverse⟩

instance {ε α : Type} [DecidableEq ε] [DecidableEq α] : DecidableEq (Except ε α) := fun x y =>
  match x, y with
  | Except.ok a, Except.ok b =>
    if h : a = b then isTrue (by rw [h]) else isFalse (fun hh => h (Except.ok.inj hh))
  | Except.error a, Except.error b =>
    if h : a = b then isTrue (by rw [h]) else isFalse (fun hh => h (Except.error.inj hh))
  | Except.ok _, Except.error _ => isFalse (fun hh => Except.noConfusion hh)
  | Except.error _, Except.ok _ => isFalse (fun hh => Except.noConfusion hh)

/-- One exercise record of `exercises.json`: a `name` and an optional `exportName`
(other fields are never read by the script). -/
structure ExerciseRecord where
  name : String
  exportName : Option String
deriving DecidableEq

/-- Key membership (`k in d`) in the association-list model of a Python `dict`. -/
def containsKey {β : Type} (m : List (String × β)) (k : String) : Bool :=
  m.any (fun p => p.1 = k)

/-- `dict` lookup (`d.get(k)`): value of the first entry carrying key `k`. -/
def lookupKey {β : Type} (m : List (String × β)) (k : String) : Option β :=
  match m with
  | [] => none
  | p :: rest => if p.1 = k then some p.2 else lookupKey rest k

/-- `dict` assignment `d[k] = v`: overwrite in place when the key exists, else append. -/
def dictInsert {β : Type} (m : List (String × β)) (k : String) (v : β) : List (String × β) :=
  if containsKey m k then m.map (fun p => if p.1 = k then (k, v) else p)
  else m ++ [(k, v)]

/-- Number of entries carrying key `k`; a well-formed dict has at most one. -/
def countKey {β : Type} (m : List (String × β)) (k : String) : Nat :=
  (m.filter (fun p => p.1 = k)).length

/-- Lines 24-29 of the script: fold one `(ex_id, data)` record of `exercises.json`
into `name_to_id`.  The alias entry is added only when `exportName` is truthy
(present and non-empty) and its lower-cased form differs from the normalized name. -/
def addRecord (m : List (String × String)) (ex_id : String) (data : ExerciseRecord) :
    List (String × String) :=
  let name := pyStrip (pyLower data.name)
  let m1 := dictInsert m name ex_id
  match data.exportName with
  | none => m1
  | some e =>
    if e ≠ "" ∧ pyLower e ≠ name then dictInsert m1 (pyStrip (pyLower e)) ex_id else m1

/-- Lines 23-29: build the case-insensitive name → id index from `exercises.json`,
processing the records in file order. -/
def buildNameToId (exercises_data : List (String × ExerciseRecord)) :
    List (String × String) :=
  exercises_data.foldl (fun m p => addRecord m p.1 p.2) []

/-- The normalized keys a single record inserts into `name_to_id` (read off `addRecord`). -/
def recKeys (data : ExerciseRecord) : List String :=
  let name := pyStrip (pyLower data.name)
  match data.exportName with
  | none => [name]
  | some e =>
    if e ≠ "" ∧ pyLower e ≠ name then [name, pyStrip (pyLower e)] else [name]

/-- One entry appended to `csv_workouts[date]` (lines 46-51); fields stay raw strings. -/
structure LogRow where
  name : String
  reps : String
  weight : String
  isWarmup : String
deriving DecidableEq

/-- The scanner's state (lines 35-37), updated by the loop of lines 41-55. -/
structure ScanState where
  csv_exercises : Finset String
  csv_workouts : List (String × List LogRow)
  unmapped_exercises : Finset String
deriving DecidableEq

/-- Lines 35-37: the empty state before any CSV row is read. -/
def initState : ScanState := ⟨∅, [], ∅⟩

/-- `defaultdict(list)` append `d[k].append(v)`. -/
def dictAppend {β : Type} (m : List (String × List β)) (k : String) (v : β) :
    List (String × List β) :=
  if containsKey m k then m.map (fun p => if p.1 = k then (p.1, p.2 ++ [v]) else p)
  else m ++ [(k, [v])]

/-- `row[c]` on a `csv.DictReader` row: `KeyError` when the column is absent. -/
def colGet (row : List (String × String)) (c : String) : Except String String :=
  match lookupKey row c with
  | some v => Except.ok v
  | none => Except.error c

/-- Lines 41-55: process one CSV row.  Columns are read in the source's order
(`Exercise`, `Date`, `Reps`, `Weight(kg)`, `isWarmup`); a missing column raises. -/
def processRow (name_to_id : List (String × String)) (s : ScanState)
    (row : List (String × String)) : Except String ScanState := do
  let exRaw ← colGet row "Exercise"
  let dateRaw ← colGet row "Date"
  let reps ← colGet row "Reps"
  let weight ← colGet row "Weight(kg)"
  let warm ← colGet row "isWarmup"
  let exercise_name := pyStrip exRaw
  let date := pyStrip dateRaw
  Except.ok
    { csv_exercises := insert exercise_name s.csv_exercises
      csv_workouts := dictAppend s.csv_workouts date ⟨exercise_name, reps, weight, warm⟩
      unmapped_exercises :=
        if containsKey name_to_id (pyLower exercise_name) = false then
          insert exercise_name s.unmapped_exercises
        else s.unmapped_exercises }

/-- The loop of lines 41-55 from a given state; a `KeyError` aborts the scan. -/
def scanRowsFrom (name_to_id : List (String × String)) (s : ScanState) :
    List (List (String × String)) → Except String ScanState
  | [] => Except.ok s
  | row :: rows =>
    match processRow name_to_id s row with
    | Except.error e => Except.error e
    | Except.ok s2 => scanRowsFrom name_to_id s2 rows

/-- Lines 39-55: scan all CSV data rows starting from the empty state. -/
def scanRows (name_to_id : List (String × String))
    (rows : List (List (String × String))) : Except String ScanState :=
  scanRowsFrom name_to_id initState rows

/-- `csv.DictReader` pairs each data record with the header fields by position. -/
def dictReader (header : List String) (records : List (List String)) :
    List (List (String × String)) :=
  records.map (fun r => header.zip r)

/-- The five columns the scanner reads from every row. -/
def requiredCols : List String := ["Exercise", "Date", "Reps", "Weight(kg)", "isWarmup"]

/-- Line 65: `mapped_count = len(csv_exercises) - len(unmapped_exercises)` (a Python int). -/
def mapped_count (s : ScanState) : Int :=
  (s.csv_exercises.card : Int) - (s.unmapped_exercises.card : Int)

/-- One printed report line, abstracted as the data it interpolates; decorative
banner lines carry no data and are omitted. -/
inductive Line where
  | foundExercises (n : Nat)
  | foundDates (n : Nat)
  | mappedCount (m : Int) (total : Nat)
  | unmappedCount (u : Nat) (total : Nat)
  | warnHeader (u : Nat)
  | unmappedEntry (s : String)
  | truncNotice (extra : Nat)
  | allMapped
  | totalUnique (n : Nat)
  | pctMapped (m : Int) (total : Nat)
  | pctMissing (u : Nat) (total : Nat)
  | totalDates (n : Nat)
  | sampleHeader
  | sampleEntry (name : String) (id : Option String)
  | nextStepsFix
  | nextStepsDone
deriving DecidableEq

/-- Lines 57-103: the report.  Returns the lines emitted and a failure flag:
when `len(csv_exercises) = 0` the percentage computation of line 82 raises
`ZeroDivisionError`, so output stops right after line 81 and the flag is `true`. -/
def report (name_to_id : List (String × String)) (s : ScanState) : List Line × Bool :=
  let exN := s.csv_exercises.card
  let unN := s.unmapped_exercises.card
  let mapped := mapped_count s
  let unmappedSection :=
    if unN ≠ 0 then
      Line.warnHeader unN ::
        (((s.unmapped_exercises.sort (· ≤ ·)).take 20).map Line.unmappedEntry
          ++ if 20 < unN then [Line.truncNotice (unN - 20)] else [])
    else [Line.allMapped]
  let pre :=
    [Line.foundExercises exN, Line.foundDates s.csv_workouts.length,
      Line.mappedCount mapped exN, Line.unmappedCount unN exN]
      ++ unmappedSection ++ [Line.totalUnique exN]
  if exN = 0 then (pre, true)
  else
    let sampleSection :=
      if 0 < mapped then
        Line.sampleHeader ::
          (((s.csv_exercises \ s.unmapped_exercises).sort (· ≤ ·)).take 10).map
            (fun ex => Line.sampleEntry ex (lookupKey name_to_id (pyLower ex)))
      else []
    let nextSteps := if unN ≠ 0 then [Line.nextStepsFix] else [Line.nextStepsDone]
    (pre ++ [Line.pctMapped mapped exN, Line.pctMissing unN exN,
        Line.totalDates s.csv_workouts.length] ++ sampleSection ++ nextSteps, false)

/-- The exercise name carried by an unmapped-listing line, if any. -/
def lineEntry : Line → Option String
  | Line.unmappedEntry x => some x
  | _ => none

/-- The concrete mapping file of the two-spellings scenario:
`{"1": {"name": "Bench Press"}}`. -/
def benchNameToId : List (String × String) := buildNameToId [("1", ⟨"Bench Press", none⟩)]

/-- The concrete CSV of the two-spellings scenario: one row `bench press` and one
row `Bench Press` on two different dates. -/
def benchRows : List (List (String × String)) :=
  dictReader requiredCols
    [["bench press", "2024-01-01", "5", "100", "false"],
     ["Bench Press", "2024-01-02", "5", "100", "false"]]

/-- A one-row CSV (`Exercise=Squat`) used to exercise the scanner on a concrete input. -/
def squatRow : List (String × String) :=
  [("Exercise", "Squat"), ("Date", "2024-01-01"), ("Reps", "5"),
   ("Weight(kg)", "100"), ("isWarmup", "false")]

/-- The scanner state after `squatRow` is scanned against an empty mapping. -/
def squatState : ScanState :=
  ⟨{"Squat"}, [("2024-01-01", [⟨"Squat", "5", "100", "false"⟩])], {"Squat"}⟩

/-- Twenty-five distinct unmapped names, for exercising the truncated listing. -/
def manyUnmapped : Finset String :=
  {"n01", "n02", "n03", "n04", "n05", "n06", "n07", "n08", "n09", "n10", "n11",
   "n12", "n13", "n14", "n15", "n16", "n17", "n18", "n19", "n20", "n21", "n22",
   "n23", "n24", "n25"}

/-- A scanner state whose 25 exercise names are all unmapped. -/
def manyState : ScanState := ⟨manyUnmapped, [], manyUnmapped⟩

/-! ### Association-list dictionary lemmas -/

theorem lookupKey_eq_none {β : Type} {m : List (String × β)} {k : String}
    (h : containsKey m k = false) : lookupKey m k = none := by
  induction m with
  | nil => rfl
  | cons p rest ih =>
    simp only [containsKey, List.any_cons, Bool.or_eq_false_iff, decide_eq_false_iff_not] at h
    simp only [lookupKey, if_neg h.1]
    exact ih h.2

theorem lookupKey_isSome_eq_containsKey {β : Type} (m : List (String × β)) (k : String) :
    (lookupKey m k).isSome = containsKey m k := by
  induction m with
  | nil => rfl
  | cons p rest ih =>
    by_cases h : p.1 = k
    · simp [lookupKey, containsKey, h]
    · simp [lookupKey, containsKey, h, ih, List.any_cons]

theorem lookupKey_map_overwrite {β : Type} {m : List (String × β)} {k : String} (v : β)
    (h : containsKey m k = true) :
    lookupKey (m.map (fun p => if p.1 = k then (k, v) else p)) k = some v := by
  induction m with
  | nil => simp [containsKey] at h
  | cons p rest ih =>
    by_cases hp : p.1 = k
    · simp [lookupKey, hp]
    · simp only [containsKey, List.any_cons, decide_eq_true_eq, Bool.or_eq_true] at h
      rcases h with h | h
      · exact absurd h hp
      · simp only [List.map_cons, if_neg hp, lookupKey, if_neg hp]
        exact ih h

theorem lookupKey_map_overwrite_ne {β : Type} {m : List (String × β)} {k k' : String} (v : β)
    (h : k' ≠ k) :
    lookupKey (m.map (fun p => if p.1 = k then (k, v) else p)) k' = lookupKey m k' := by
  induction m with
  | nil => rfl
  | cons p rest ih =>
    by_cases hp : p.1 = k
    · simp only [List.map_cons, if_pos hp, lookupKey]
      rw [if_neg (show ¬((k, v).1 = k') from fun hh => h hh.symm),
        if_neg (show ¬(p.1 = k') from fun hh => h (hh ▸ hp)), ih]
    · simp only [List.map_cons, if_neg hp, lookupKey, ih]

theorem lookupKey_append_single {β : Type} (m : List (String × β)) (k k' : String) (v : β) :
    lookupKey (m ++ [(k, v)]) k' =
      match lookupKey m k' with
      | some w => some w
      | none => if k = k' then some v else none := by
  induction m with
  | nil => simp [lookupKey]
  | cons p rest ih =>
    by_cases hp : p.1 = k'
    · simp [lookupKey, hp]
    · simp [lookupKey, hp, ih]

theorem lookupKey_dictInsert {β : Type} (m : List (String × β)) (k k' : String) (v : β) :
    lookupKey (dictInsert m k v) k' = if k' = k then some v else lookupKey m k' := by
  unfold dictInsert
  by_cases hc : containsKey m k
  · rw [if_pos hc]
    by_cases hk : k' = k
    · rw [if_pos hk, hk, lookupKey_map_overwrite v hc]
    · rw [if_neg hk, lookupKey_map_overwrite_ne v hk]
  · rw [if_neg hc, lookupKey_append_single]
    by_cases hk : k' = k
    · rw [if_pos hk, hk, lookupKey_eq_none (Bool.eq_false_iff.mpr hc), if_pos rfl]
    · rw [if_neg hk]
      cases hl : lookupKey m k'
      · rw [if_neg (fun hh => hk hh.symm)]
      · rfl

theorem filter_map_overwrite {β : Type} (k k' : String) (v : β) :
    ∀ m : List (String × β),
      (List.filter (fun p => decide (p.1 = k'))
        (m.map (fun p => if p.1 = k then (k, v) else p))).length
      = (List.filter (fun p => decide (p.1 = k')) m).length
  | [] => rfl
  | p :: rest => by
    rw [List.map_cons, List.filter_cons, List.filter_cons]
    have hpt : (decide ((if p.1 = k then (k, v) else p).1 = k')) = decide (p.1 = k') := by
      by_cases hqk : p.1 = k
      · rw [if_pos hqk, hqk]
      · rw [if_neg hqk]
    rw [hpt]
    by_cases hp : p.1 = k'
    · simp [hp, filter_map_overwrite k k' v rest]
    · simp [hp, filter_map_overwrite k k' v rest]

theorem countKey_map_overwrite {β : Type} (m : List (String × β)) (k k' : String) (v : β) :
    countKey (m.map (fun p => if p.1 = k then (k, v) else p)) k' = countKey m k' := by
  unfold countKey
  exact filter_map_overwrite k k' v m

theorem countKey_append_single {β : Type} (m : List (String × β)) (k k' : String) (v : β) :
    countKey (m ++ [(k, v)]) k' = countKey m k' + (if k = k' then 1 else 0) := by
  unfold countKey
  rw [List.filter_append, List.length_append]
  by_cases hk : k = k'
  · simp [List.filter_cons, hk]
  · simp [List.filter_cons, hk]

theorem countKey_eq_zero {β : Type} {m : List (String × β)} {k : String}
    (h : containsKey m k = false) : countKey m k = 0 := by
  induction m with
  | nil => rfl
  | cons p rest ih =>
    simp only [containsKey, List.any_cons, Bool.or_eq_false_iff, decide_eq_false_iff_not] at h
    unfold countKey
    rw [List.filter_cons, decide_eq_false h.1]
    exact ih h.2

theorem countKey_pos_of_containsKey {β : Type} {m : List (String × β)} {k : String}
    (h : containsKey m k = true) : 1 ≤ countKey m k := by
  induction m with
  | nil => simp [containsKey] at h
  | cons p rest ih =>
    simp only [containsKey, List.any_cons, Bool.or_eq_true, decide_eq_true_eq] at h
    unfold countKey
    rw [List.filter_cons]
    by_cases hp : p.1 = k
    · simp [hp]
    · rcases h with h | h
      · exact absurd h hp
      · simpa [hp] using ih h

theorem countKey_dictInsert_self {β : Type} (m : List (String × β)) (k : String) (v : β) :
    countKey (dictInsert m k v) k = if containsKey m k then countKey m k else 1 := by
  unfold dictInsert
  by_cases hc : containsKey m k
  · rw [if_pos hc, if_pos hc, countKey_map_overwrite]
  · rw [if_neg hc, if_neg hc, countKey_append_single, if_pos rfl,
      countKey_eq_zero (Bool.eq_false_iff.mpr hc)]

theorem countKey_dictInsert_ne {β : Type} (m : List (String × β)) {k k' : String} (v : β)
    (h : k' ≠ k) : countKey (dictInsert m k v) k' = countKey m k' := by
  unfold dictInsert
  by_cases hc : containsKey m k
  · rw [if_pos hc, countKey_map_overwrite]
  · rw [if_neg hc, countKey_append_single, if_neg (fun hh => h hh.symm)]
    omega

theorem mem_dictInsert {β : Type} {m : List (String × β)} {k : String} {v : β}
    {p : String × β} (h : p ∈ dictInsert m k v) : p.1 = k ∨ p ∈ m := by
  unfold dictInsert at h
  by_cases hc : containsKey m k
  · rw [if_pos hc] at h
    rcases List.mem_map.mp h with ⟨q, hq, hfq⟩
    by_cases hqk : q.1 = k
    · left; rw [← hfq, if_pos hqk]
    · right; rw [← hfq, if_neg hqk]; exact hq
  · rw [if_neg hc] at h
    rcases List.mem_append.mp h with h | h
    · right; exact h
    · left; simp at h; rw [h]

/-! ### String normalization lemmas -/

theorem Char.toLower_toLower (c : Char) : c.toLower.toLower = c.toLower := by
  show Char.toLower (Char.toLower c) = Char.toLower c
  unfold Char.toLower
  by_cases h : c.toNat ≥ 65 ∧ c.toNat ≤ 90
  · rw [if_pos h]
    have hv : (c.toNat + 32).isValidChar := by
      have := h.2
      left
      omega
    have hv' : (c.val.toBitVec.toNat + 32).isValidChar := hv
    have ht : (Char.ofNat (c.toNat + 32)).toNat = c.toNat + 32 := by
      simp [Char.ofNat, Char.ofNatAux, Char.toNat, UInt32.toNat, hv']
    rw [ht]
    have hno : ¬(c.toNat + 32 ≥ 65 ∧ c.toNat + 32 ≤ 90) := by
      have := h.1
      omega
    rw [if_neg hno]
  · rw [if_neg h, if_neg h]

theorem dropWhile_dropWhile {α : Type} (p : α → Bool) :
    ∀ l : List α, List.dropWhile p (List.dropWhile p l) = List.dropWhile p l
  | [] => rfl
  | a :: l => by
    rw [List.dropWhile_cons]
    by_cases h : p a
    · rw [if_pos h]
      exact dropWhile_dropWhile p l
    · rw [if_neg h, List.dropWhile_cons, if_neg h]

/-- Right strip on the char list: the model of `str.rstrip`. -/
def rdropW (l : List Char) : List Char :=
  (l.reverse.dropWhile Char.isWhitespace).reverse

theorem rdropW_rdropW (l : List Char) : rdropW (rdropW l) = rdropW l := by
  unfold rdropW
  rw [List.reverse_reverse, dropWhile_dropWhile]

theorem ldrop_decomp {α : Type} (p : α → Bool) (l : List α) :
    ∃ t, l = t ++ List.dropWhile p l := ⟨List.takeWhile p l, (List.takeWhile_append_dropWhile p l).symm⟩

theorem dropWhile_head_false {α : Type} (p : α → Bool) :
    ∀ (l : List α) (a : α) (t : List α), List.dropWhile p l = a :: t → p a = false
  | [], a, t, h => by simp at h
  | b :: l, a, t, h => by
    rw [List.dropWhile_cons] at h
    by_cases hb : p b
    · rw [if_pos hb] at h
      exact dropWhile_head_false p l a t h
    · rw [if_neg hb] at h
      injection h with h1 h2
      rw [← h1]
      exact Bool.eq_false_iff.mpr hb

theorem dropWhile_of_head_false {α : Type} (p : α → Bool) (a : α) (t : List α)
    (h : p a = false) : List.dropWhile p (a :: t) = a :: t := by
  rw [List.dropWhile_cons, if_neg (by simp [h])]

/-- A right strip of a left-stripped list is still left-stripped. -/
theorem dropWhile_rdropW_dropWhile (l : List Char) :
    List.dropWhile Char.isWhitespace (rdropW (List.dropWhile Char.isWhitespace l))
      = rdropW (List.dropWhile Char.isWhitespace l) := by
  have hdect : List.dropWhile Char.isWhitespace l
      = rdropW (List.dropWhile Char.isWhitespace l)
        ++ (List.takeWhile Char.isWhitespace
            (List.dropWhile Char.isWhitespace l).reverse).reverse := by
    unfold rdropW
    rw [← List.reverse_append, List.takeWhile_append_dropWhile, List.reverse_reverse]
  cases hr : rdropW (List.dropWhile Char.isWhitespace l) with
  | nil => rfl
  | cons a t' =>
    rw [hr] at hdect
    have hpa : Char.isWhitespace a = false :=
      dropWhile_head_false Char.isWhitespace l a _ (by rw [hdect, List.cons_append])
    exact dropWhile_of_head_false Char.isWhitespace a t' hpa

theorem pyStrip_idem (s : String) : pyStrip (pyStrip s) = pyStrip s := by
  show (⟨rdropW (List.dropWhile Char.isWhitespace
      (rdropW (List.dropWhile Char.isWhitespace s.data)))⟩ : String)
    = ⟨rdropW (List.dropWhile Char.isWhitespace s.data)⟩
  rw [dropWhile_rdropW_dropWhile, rdropW_rdropW]

theorem mem_dropWhile {α : Type} {c : α} {p : α → Bool} {l : List α}
    (h : c ∈ List.dropWhile p l) : c ∈ l :=
  List.Sublist.mem h (List.dropWhile_sublist p)

theorem mem_rdropW {c : Char} {l : List Char} (h : c ∈ rdropW l) : c ∈ l := by
  unfold rdropW at h
  rw [List.mem_reverse] at h
  exact List.mem_reverse.mp (mem_dropWhile h)

theorem mem_pyStrip_data {c : Char} {t : String} (h : c ∈ (pyStrip t).data) : c ∈ t.data := by
  have h' : c ∈ rdropW (List.dropWhile Char.isWhitespace t.data) := h
  exact mem_dropWhile (mem_rdropW h')

theorem map_eq_self_of {α : Type} {f : α → α} :
    ∀ {l : List α}, (∀ a ∈ l, f a = a) → l.map f = l
  | [], _ => rfl
  | a :: l, h => by
    rw [List.map_cons, h a (List.mem_cons_self a l),
      map_eq_self_of (fun b hb => h b (List.mem_cons_of_mem a hb))]

theorem pyLower_pyStrip_pyLower (s : String) :
    pyLower (pyStrip (pyLower s)) = pyStrip (pyLower s) := by
  show (⟨(pyStrip (pyLower s)).data.map Char.toLower⟩ : String) = pyStrip (pyLower s)
  have hmap : (pyStrip (pyLower s)).data.map Char.toLower = (pyStrip (pyLower s)).data := by
    apply map_eq_self_of
    intro c hc
    have h1 : c ∈ (pyLower s).data := mem_pyStrip_data hc
    have h2 : c ∈ s.data.map Char.toLower := h1
    rcases List.mem_map.mp h2 with ⟨b, _, hb⟩
    rw [← hb]
    exact Char.toLower_toLower b
  rw [hmap]

theorem dictInsert_of_containsKey {β : Type} {m : List (String × β)} {k : String}
    (h : containsKey m k = true) (v : β) :
    dictInsert m k v = m.map (fun p => if p.1 = k then (k, v) else p) := by
  unfold dictInsert
  rw [if_pos h]

theorem mem_dictInsert_key_eq {β : Type} {m : List (String × β)} {k : String} {v : β}
    {p : String × β} (hmem : p ∈ dictInsert m k v) (hk : p.1 = k) : p = (k, v) := by
  unfold dictInsert at hmem
  by_cases hc : containsKey m k
  · rw [if_pos hc] at hmem
    rcases List.mem_map.mp hmem with ⟨q, hq, hfq⟩
    by_cases hqk : q.1 = k
    · rw [← hfq, if_pos hqk]
    · rw [← hfq, if_neg hqk] at hk
      exact absurd hk hqk
  · rw [if_neg hc] at hmem
    rcases List.mem_append.mp hmem with h | h
    · exfalso
      have hck : containsKey m k = true := by
        unfold containsKey
        rw [List.any_eq_true]
        exact ⟨p, h, by simp [hk]⟩
      rw [hck] at hc
      exact hc rfl
    · simpa using h

theorem dictInsert_dictInsert_same {β : Type} (m : List (String × β)) (k : String) (v : β) :
    dictInsert (dictInsert m k v) k v = dictInsert m k v := by
  have hc2 : containsKey (dictInsert m k v) k = true := by
    rw [← lookupKey_isSome_eq_containsKey, lookupKey_dictInsert, if_pos rfl]
    rfl
  rw [dictInsert_of_containsKey hc2]
  apply map_eq_self_of
  intro p hp
  by_cases hk : p.1 = k
  · rw [if_pos hk, mem_dictInsert_key_eq hp hk]
  · rw [if_neg hk]

/-- **C3 (counterexample).** A record whose `exportName` is present but empty:
its normalized exportName (the empty string) differs from the normalized name,
yet no alias is inserted, because the code's truthiness test skips `""`. -/
theorem C3_counterexample :
    (⟨"Bench", some ""⟩ : ExerciseRecord).exportName = some "" ∧
    pyStrip (pyLower "") ≠ pyStrip (pyLower "Bench") ∧
    lookupKey (addRecord [] "1" ⟨"Bench", some ""⟩) (pyStrip (pyLower "")) ≠ some "1" := by
  refine ⟨rfl, ?_, ?_⟩ <;> decide

/-- **C3 (amended).** For every record with a present and NON-EMPTY `exportName`:
if its normalized form differs from the normalized name, the index additionally
maps it to the record's id; if the normalized forms agree, nothing beyond the
name entry is inserted.  (The empty string is treated as absent by the code's
truthiness test, which the counterexample shows.) -/
theorem C3_exportName_alias (m : List (String × String)) (ex_id : String)
    (data : ExerciseRecord) (e : String) (he : data.exportName = some e) (hne : e ≠ "") :
    (pyStrip (pyLower e) ≠ pyStrip (pyLower data.name) →
      lookupKey (addRecord m ex_id data) (pyStrip (pyLower e)) = some ex_id) ∧
    (pyStrip (pyLower e) = pyStrip (pyLower data.name) →
      addRecord m ex_id data = dictInsert m (pyStrip (pyLower data.name)) ex_id) := by
  constructor
  · intro hdiff
    have hlow : pyLower e ≠ pyStrip (pyLower data.name) := by
      intro hl
      apply hdiff
      rw [hl]
      exact pyStrip_idem (pyLower data.name)
    simp only [addRecord, he]
    rw [if_pos ⟨hne, hlow⟩, lookupKey_dictInsert, if_pos rfl]
  · intro heq
    by_cases hl : pyLower e = pyStrip (pyLower data.name)
    · simp only [addRecord, he]
      rw [if_neg (fun hh => hh.2 hl)]
    · simp only [addRecord, he]
      rw [if_pos ⟨hne, hl⟩, heq, dictInsert_dictInsert_same]

theorem C3_exportName_alias_witness :
    ((⟨"Bench Press", some "Flat Bench"⟩ : ExerciseRecord).exportName = some "Flat Bench" ∧
      ("Flat Bench" : String) ≠ "") ∧
    (pyStrip (pyLower "Flat Bench") ≠ pyStrip (pyLower "Bench Press") →
      lookupKey (addRecord [] "1" ⟨"Bench Press", some "Flat Bench"⟩)
        (pyStrip (pyLower "Flat Bench")) = some "1") ∧
    (pyStrip (pyLower "Flat Bench") = pyStrip (pyLower "Bench Press") →
      addRecord [] "1" ⟨"Bench Press", some "Flat Bench"⟩
        = dictInsert [] (pyStrip (pyLower "Bench Press")) "1") :=
  ⟨⟨rfl, by decide⟩,
   (C3_exportName_alias [] "1" ⟨"Bench Press", some "Flat Bench"⟩ "Flat Bench" rfl
     (by decide)).1,
   (C3_exportName_alias [] "1" ⟨"Bench Press", some "Flat Bench"⟩ "Flat Bench" rfl
     (by decide)).2⟩

theorem lookupKey_addRecord (m : List (String × String)) (ex_id : String)
    (data : ExerciseRecord) (k : String) :
    lookupKey (addRecord m ex_id data) k
      = if k ∈ recKeys data then some ex_id else lookupKey m k := by
  obtain ⟨nm, expo⟩ := data
  cases expo with
  | none =>
    simp only [addRecord, recKeys]
    rw [lookupKey_dictInsert]
    by_cases hk : k = pyStrip (pyLower nm)
    · rw [if_pos hk, if_pos (by simp [hk])]
    · rw [if_neg hk, if_neg (by simp [hk])]
  | some e =>
    simp only [addRecord, recKeys]
    by_cases hg : e ≠ "" ∧ pyLower e ≠ pyStrip (pyLower nm)
    · rw [if_pos hg, if_pos hg, lookupKey_dictInsert, lookupKey_dictInsert]
      by_cases hk2 : k = pyStrip (pyLower e)
      · rw [if_pos hk2, if_pos (by simp [hk2])]
      · rw [if_neg hk2]
        by_cases hk1 : k = pyStrip (pyLower nm)
        · rw [if_pos hk1, if_pos (by simp [hk1])]
        · rw [if_neg hk1, if_neg (by simp [hk1, hk2])]
    · rw [if_neg hg, if_neg hg, lookupKey_dictInsert]
      by_cases hk : k = pyStrip (pyLower nm)
      · rw [if_pos hk, if_pos (by simp [hk])]
      · rw [if_neg hk, if_neg (by simp [hk])]

theorem countKey_dictInsert_le_one {β : Type} {m : List (String × β)} {k' : String}
    (h : countKey m k' ≤ 1) (k : String) (v : β) :
    countKey (dictInsert m k v) k' ≤ 1 := by
  by_cases hk : k' = k
  · subst hk
    rw [countKey_dictInsert_self]
    by_cases hc : containsKey m k'
    · rw [if_pos hc]; exact h
    · rw [if_neg hc]
  · rw [countKey_dictInsert_ne m v hk]
    exact h

theorem countKey_dictInsert_eq_one {β : Type} {m : List (String × β)} {k : String}
    (h : countKey m k ≤ 1) (v : β) : countKey (dictInsert m k v) k = 1 := by
  rw [countKey_dictInsert_self]
  by_cases hc : containsKey m k
  · rw [if_pos hc]
    exact le_antisymm h (countKey_pos_of_containsKey hc)
  · rw [if_neg hc]

theorem countKey_addRecord_le_one {m : List (String × String)} {k : String}
    (h : countKey m k ≤ 1) (ex_id : String) (data : ExerciseRecord) :
    countKey (addRecord m ex_id data) k ≤ 1 := by
  obtain ⟨nm, expo⟩ := data
  cases expo with
  | none => exact countKey_dictInsert_le_one h _ _
  | some e =>
    simp only [addRecord]
    by_cases hg : e ≠ "" ∧ pyLower e ≠ pyStrip (pyLower nm)
    · rw [if_pos hg]
      exact countKey_dictInsert_le_one (countKey_dictInsert_le_one h _ _) _ _
    · rw [if_neg hg]
      exact countKey_dictInsert_le_one h _ _

theorem countKey_addRecord_mem {m : List (String × String)} {k : String}
    (h : countKey m k ≤ 1) {ex_id : String} {data : ExerciseRecord}
    (hmem : k ∈ recKeys data) : countKey (addRecord m ex_id data) k = 1 := by
  obtain ⟨nm, expo⟩ := data
  cases expo with
  | none =>
    simp only [recKeys, List.mem_singleton] at hmem
    subst hmem
    exact countKey_dictInsert_eq_one h ex_id
  | some e =>
    simp only [recKeys] at hmem
    simp only [addRecord]
    by_cases hg : e ≠ "" ∧ pyLower e ≠ pyStrip (pyLower nm)
    · rw [if_pos hg] at hmem ⊢
      by_cases hk2 : k = pyStrip (pyLower e)
      · subst hk2
        exact countKey_dictInsert_eq_one (countKey_dictInsert_le_one h _ _) ex_id
      · have hk1 : k = pyStrip (pyLower nm) := by
          rcases List.mem_cons.mp hmem with h1 | h1
          · exact h1
          · rw [List.mem_singleton] at h1
            exact absurd h1 hk2
        subst hk1
        rw [countKey_dictInsert_ne _ _ hk2]
        exact countKey_dictInsert_eq_one h ex_id
    · rw [if_neg hg] at hmem ⊢
      simp only [List.mem_singleton] at hmem
      subst hmem
      exact countKey_dictInsert_eq_one h ex_id

theorem countKey_addRecord_not_mem {m : List (String × String)} {k : String}
    {ex_id : String} {data : ExerciseRecord} (h : k ∉ recKeys data) :
    countKey (addRecord m ex_id data) k = countKey m k := by
  obtain ⟨nm, expo⟩ := data
  cases expo with
  | none =>
    have hk : k ≠ pyStrip (pyLower nm) := by
      intro hh
      exact h (by simp [recKeys, hh])
    exact countKey_dictInsert_ne m ex_id hk
  | some e =>
    simp only [recKeys] at h
    simp only [addRecord]
    by_cases hg : e ≠ "" ∧ pyLower e ≠ pyStrip (pyLower nm)
    · rw [if_pos hg] at h
      have hk1 : k ≠ pyStrip (pyLower nm) := fun hh => h (by simp [hh])
      have hk2 : k ≠ pyStrip (pyLower e) := fun hh => h (by simp [hh])
      rw [if_pos hg, countKey_dictInsert_ne _ _ hk2, countKey_dictInsert_ne _ _ hk1]
    · rw [if_neg hg] at h
      have hk1 : k ≠ pyStrip (pyLower nm) := fun hh => h (by simp [hh])
      rw [if_neg hg, countKey_dictInsert_ne _ _ hk1]

theorem foldl_addRecord_not_mem (k : String) :
    ∀ (post : List (String × ExerciseRecord)) (m : List (String × String)),
      (∀ r ∈ post, k ∉ recKeys r.2) →
      lookupKey (post.foldl (fun m p => addRecord m p.1 p.2) m) k = lookupKey m k ∧
      countKey (post.foldl (fun m p => addRecord m p.1 p.2) m) k = countKey m k
  | [], _, _ => ⟨rfl, rfl⟩
  | r :: rest, m, hpost => by
    rw [List.foldl_cons]
    have hr : k ∉ recKeys r.2 := hpost r (List.mem_cons_self r rest)
    rcases foldl_addRecord_not_mem k rest (addRecord m r.1 r.2)
      (fun q hq => hpost q (List.mem_cons_of_mem r hq)) with ⟨h1, h2⟩
    rw [h1, h2, lookupKey_addRecord, if_neg hr, countKey_addRecord_not_mem hr]
    exact ⟨rfl, rfl⟩

theorem countKey_foldl_le_one (k : String) :
    ∀ (exs : List (String × ExerciseRecord)) (m : List (String × String)),
      countKey m k ≤ 1 → countKey (exs.foldl (fun m p => addRecord m p.1 p.2) m) k ≤ 1
  | [], _, h => h
  | r :: rest, m, h => by
    rw [List.foldl_cons]
    exact countKey_foldl_le_one k rest _ (countKey_addRecord_le_one h r.1 r.2)

/-- **C6.** When several records of the mapping file produce the same normalized
key, `name_to_id` maps that key to the id of the record processed last, and
holds exactly one entry for it. -/
theorem C6_last_write_wins (pre post : List (String × ExerciseRecord))
    (i j : String × ExerciseRecord) (k : String)
    (hi : i ∈ pre) (hik : k ∈ recKeys i.2) (hjk : k ∈ recKeys j.2)
    (hpost : ∀ r ∈ post, k ∉ recKeys r.2) :
    lookupKey (buildNameToId (pre ++ j :: post)) k = some j.1 ∧
    countKey (buildNameToId (pre ++ j :: post)) k = 1 := by
  unfold buildNameToId
  rw [List.foldl_append, List.foldl_cons]
  rcases foldl_addRecord_not_mem k post
    (addRecord (pre.foldl (fun m p => addRecord m p.1 p.2) []) j.1 j.2) hpost with ⟨h1, h2⟩
  constructor
  · rw [h1, lookupKey_addRecord, if_pos hjk]
  · rw [h2]
    exact countKey_addRecord_mem
      (countKey_foldl_le_one k pre [] (by simp [countKey])) hjk

theorem C6_last_write_wins_witness :
    ((("1", ⟨"Bench", none⟩) : String × ExerciseRecord) ∈
        [(("1", ⟨"Bench", none⟩) : String × ExerciseRecord)] ∧
      "bench" ∈ recKeys (⟨"Bench", none⟩ : ExerciseRecord) ∧
      "bench" ∈ recKeys (⟨" BENCH ", none⟩ : ExerciseRecord) ∧
      (∀ r ∈ [(("3", ⟨"Squat", none⟩) : String × ExerciseRecord)],
        "bench" ∉ recKeys r.2)) ∧
    lookupKey (buildNameToId
        [("1", ⟨"Bench", none⟩), ("2", ⟨" BENCH ", none⟩), ("3", ⟨"Squat", none⟩)])
      "bench" = some "2" ∧
    countKey (buildNameToId
        [("1", ⟨"Bench", none⟩), ("2", ⟨" BENCH ", none⟩), ("3", ⟨"Squat", none⟩)])
      "bench" = 1 :=
  ⟨⟨by decide, by decide, by decide, by decide⟩,
   C6_last_write_wins [("1", ⟨"Bench", none⟩)] [("3", ⟨"Squat", none⟩)]
     ("1", ⟨"Bench", none⟩) ("2", ⟨" BENCH ", none⟩) "bench"
     (by decide) (by decide) (by decide) (by decide)⟩

theorem colGet_ok {row : List (String × String)} {c v : String}
    (h : colGet row c = Except.ok v) : lookupKey row c = some v := by
  unfold colGet at h
  cases hl : lookupKey row c with
  | none => rw [hl] at h; exact absurd h (by simp)
  | some w => rw [hl] at h; simpa using h

theorem processRow_ok_shape {d : List (String × String)} {s : ScanState}
    {row : List (String × String)} {s' : ScanState}
    (h : processRow d s row = Except.ok s') :
    (∀ c ∈ requiredCols, (lookupKey row c).isSome) ∧
    ∃ exRaw dateRaw lr,
      s'.csv_exercises = insert (pyStrip exRaw) s.csv_exercises ∧
      s'.csv_workouts = dictAppend s.csv_workouts (pyStrip dateRaw) lr ∧
      s'.unmapped_exercises =
        (if containsKey d (pyLower (pyStrip exRaw)) = false
         then insert (pyStrip exRaw) s.unmapped_exercises
         else s.unmapped_exercises) := by
  unfold processRow at h
  cases h1 : colGet row "Exercise" with
  | error e => rw [h1] at h; simp [bind, Except.bind] at h
  | ok exRaw =>
  rw [h1] at h
  cases h2 : colGet row "Date" with
  | error e => rw [h2] at h; simp [bind, Except.bind] at h
  | ok dateRaw =>
  rw [h2] at h
  cases h3 : colGet row "Reps" with
  | error e => rw [h3] at h; simp [bind, Except.bind] at h
  | ok reps =>
  rw [h3] at h
  cases h4 : colGet row "Weight(kg)" with
  | error e => rw [h4] at h; simp [bind, Except.bind] at h
  | ok weight =>
  rw [h4] at h
  cases h5 : colGet row "isWarmup" with
  | error e => rw [h5] at h; simp [bind, Except.bind] at h
  | ok warm =>
  rw [h5] at h
  simp only [bind, Except.bind] at h
  have hs : s' = { csv_exercises := insert (pyStrip exRaw) s.csv_exercises
                   csv_workouts := dictAppend s.csv_workouts (pyStrip dateRaw)
                     ⟨pyStrip exRaw, reps, weight, warm⟩
                   unmapped_exercises :=
                     if containsKey d (pyLower (pyStrip exRaw)) = false then
                       insert (pyStrip exRaw) s.unmapped_exercises
                     else s.unmapped_exercises } := by
    simpa using h.symm
  constructor
  · intro c hc
    simp only [requiredCols, List.mem_cons, List.mem_singleton] at hc
    rcases hc with rfl | rfl | rfl | rfl | rfl | hc
    · rw [colGet_ok h1]; rfl
    · rw [colGet_ok h2]; rfl
    · rw [colGet_ok h3]; rfl
    · rw [colGet_ok h4]; rfl
    · rw [colGet_ok h5]; rfl
    · simp at hc
  · exact ⟨exRaw, dateRaw, ⟨pyStrip exRaw, reps, weight, warm⟩, by rw [hs], by rw [hs], by rw [hs]⟩

theorem scanRowsFrom_inv (d : List (String × String)) (P : ScanState → Prop)
    (hstep : ∀ s row s', processRow d s row = Except.ok s' → P s → P s') :
    ∀ (rows : List (List (String × String))) (s s' : ScanState),
      scanRowsFrom d s rows = Except.ok s' → P s → P s'
  | [], s, s', h, hp => by
    simp only [scanRowsFrom] at h
    cases h
    exact hp
  | row :: rows, s, s', h, hp => by
    simp only [scanRowsFrom] at h
    cases hpr : processRow d s row with
    | error e => rw [hpr] at h; simp at h
    | ok s2 =>
      rw [hpr] at h
      exact scanRowsFrom_inv d P hstep rows s2 s' h (hstep s row s2 hpr hp)

/-- **C4.** After a completed scan the unmapped set is a subset of the exercise
set, `mapped_count` satisfies `mapped_count + |UnmappedSet| = |ExerciseNameSet|`,
and `mapped_count` is never negative. -/
theorem C4_mapped_count_identity (d : List (String × String))
    (rows : List (List (String × String))) (s : ScanState)
    (h : scanRows d rows = Except.ok s) :
    s.unmapped_exercises ⊆ s.csv_exercises ∧
    mapped_count s + (s.unmapped_exercises.card : Int) = (s.csv_exercises.card : Int) ∧
    0 ≤ mapped_count s := by
  have hsub : s.unmapped_exercises ⊆ s.csv_exercises := by
    refine scanRowsFrom_inv d (fun t => t.unmapped_exercises ⊆ t.csv_exercises) ?_
      rows initState s h ?_
    · intro t row t' hpr hp
      rcases processRow_ok_shape hpr with ⟨_, exRaw, dateRaw, lr, hce, hcw, hun⟩
      rw [hce, hun]
      by_cases hck : containsKey d (pyLower (pyStrip exRaw)) = false
      · rw [if_pos hck]
        exact Finset.insert_subset_insert _ hp
      · rw [if_neg hck]
        exact hp.trans (Finset.subset_insert _ _)
    · simp [initState]
  have hcard : s.unmapped_exercises.card ≤ s.csv_exercises.card := Finset.card_le_card hsub
  refine ⟨hsub, ?_, ?_⟩
  · unfold mapped_count
    ring
  · unfold mapped_count
    omega

theorem C4_mapped_count_identity_witness :
    (scanRows [] [squatRow] = Except.ok squatState) ∧
    (squatState.unmapped_exercises ⊆ squatState.csv_exercises ∧
      mapped_count squatState + (squatState.unmapped_exercises.card : Int)
        = (squatState.csv_exercises.card : Int) ∧
      0 ≤ mapped_count squatState) :=
  ⟨by decide, C4_mapped_count_identity [] [squatRow] squatState (by decide)⟩

theorem sampleEntry_not_mem_take_unmapped {n : String} {o : Option String} {k : Nat}
    {l : List String} :
    Line.sampleEntry n o ∉ List.take k (List.map Line.unmappedEntry l) := by
  intro h
  rcases List.mem_map.mp (List.take_subset k _ h) with ⟨a, _, ha⟩
  exact Line.noConfusion ha

theorem sampleEntry_mem_take {d : List (String × String)} {l : List String} {k : Nat}
    {n : String} {o : Option String}
    (h : Line.sampleEntry n o ∈ List.take k
      (l.map (fun ex => Line.sampleEntry ex (lookupKey d (pyLower ex))))) :
    ∃ ex ∈ l, n = ex ∧ o = lookupKey d (pyLower ex) := by
  rcases List.mem_map.mp (List.take_subset k _ h) with ⟨ex, hex, hfe⟩
  injection hfe with hn ho
  exact ⟨ex, hex, hn.symm, ho.symm⟩

theorem sampleEntry_mem_report {d : List (String × String)} {s : ScanState}
    {n : String} {o : Option String}
    (hmem : Line.sampleEntry n o ∈ (report d s).1) :
    ∃ ex ∈ s.csv_exercises \ s.unmapped_exercises, n = ex ∧ o = lookupKey d (pyLower ex) := by
  by_cases h0 : s.csv_exercises.card = 0 <;>
    by_cases h1 : s.unmapped_exercises.card = 0 <;>
      by_cases h2 : 20 < s.unmapped_exercises.card <;>
        by_cases h3 : 0 < mapped_count s <;>
          simp [report, h0, h1, h2, h3, -String.le_iff_toList_le, -String.lt_iff_toList_lt] at hmem
  all_goals
    first
    | exact absurd hmem sampleEntry_not_mem_take_unmapped
    | (rcases sampleEntry_mem_take hmem with ⟨ex, hex, hn, ho⟩
       exact ⟨ex, (Finset.mem_sort _).mp hex, hn, ho⟩)
    | (rcases hmem with hmem | hmem
       · exact absurd hmem sampleEntry_not_mem_take_unmapped
       · rcases sampleEntry_mem_take hmem with ⟨ex, hex, hn, ho⟩
         exact ⟨ex, (Finset.mem_sort _).mp hex, hn, ho⟩)

/-- **C9.** Every name classified as mapped resolves in `name_to_id` under its
lower-cased form, so each line of the mapped-sample section of the report shows
an actual canonical id (never the absent result). -/
theorem C9_mapped_lookup_isSome (d : List (String × String))
    (rows : List (List (String × String))) (s : ScanState)
    (h : scanRows d rows = Except.ok s) :
    (∀ ex ∈ s.csv_exercises \ s.unmapped_exercises, (lookupKey d (pyLower ex)).isSome) ∧
    (∀ n o, Line.sampleEntry n o ∈ (report d s).1 → o.isSome) := by
  have hmain : ∀ x ∈ s.csv_exercises, x ∉ s.unmapped_exercises →
      (lookupKey d (pyLower x)).isSome := by
    refine scanRowsFrom_inv d
      (fun t => ∀ x ∈ t.csv_exercises, x ∉ t.unmapped_exercises →
        (lookupKey d (pyLower x)).isSome) ?_ rows initState s h ?_
    · intro t row t' hpr hp
      rcases processRow_ok_shape hpr with ⟨_, exRaw, dateRaw, lr, hce, hcw, hun⟩
      intro x hx hnx
      rw [hce] at hx
      rcases Finset.mem_insert.mp hx with rfl | hx
      · by_cases hck : containsKey d (pyLower (pyStrip exRaw)) = false
        · exfalso
          apply hnx
          rw [hun, if_pos hck]
          exact Finset.mem_insert_self _ _
        · rw [lookupKey_isSome_eq_containsKey]
          cases hcb : containsKey d (pyLower (pyStrip exRaw)) with
          | false => exact absurd hcb hck
          | true => rfl
      · refine hp x hx ?_
        intro hxu
        apply hnx
        rw [hun]
        by_cases hck : containsKey d (pyLower (pyStrip exRaw)) = false
        · rw [if_pos hck]
          exact Finset.mem_insert_of_mem hxu
        · rw [if_neg hck]
          exact hxu
    · intro x hx
      simp [initState] at hx
  constructor
  · intro ex hex
    rcases Finset.mem_sdiff.mp hex with ⟨h1, h2⟩
    exact hmain ex h1 h2
  · intro n o hmem
    rcases sampleEntry_mem_report hmem with ⟨ex, hex, hn, ho⟩
    rcases Finset.mem_sdiff.mp hex with ⟨h1, h2⟩
    rw [ho]
    exact hmain ex h1 h2

theorem C9_mapped_lookup_isSome_witness :
    (scanRows [("squat", "17")] [squatRow]
      = Except.ok ⟨{"Squat"}, [("2024-01-01", [⟨"Squat", "5", "100", "false"⟩])], ∅⟩) ∧
    ((∀ ex ∈ ({"Squat"} : Finset String) \ (∅ : Finset String),
        (lookupKey [("squat", "17")] (pyLower ex)).isSome) ∧
      (∀ n o, Line.sampleEntry n o ∈
          (report [("squat", "17")]
            ⟨{"Squat"}, [("2024-01-01", [⟨"Squat", "5", "100", "false"⟩])], ∅⟩).1 →
        o.isSome)) :=
  ⟨by decide, C9_mapped_lookup_isSome [("squat", "17")] [squatRow]
    ⟨{"Squat"}, [("2024-01-01", [⟨"Squat", "5", "100", "false"⟩])], ∅⟩ (by decide)⟩

theorem addRecord_keys_normalized {m : List (String × String)}
    (hm : ∀ p ∈ m, pyLower p.1 = p.1 ∧ pyStrip p.1 = p.1) (ex_id : String)
    (data : ExerciseRecord) :
    ∀ p ∈ addRecord m ex_id data, pyLower p.1 = p.1 ∧ pyStrip p.1 = p.1 := by
  obtain ⟨nm, expo⟩ := data
  have hbase : ∀ p ∈ dictInsert m (pyStrip (pyLower nm)) ex_id,
      pyLower p.1 = p.1 ∧ pyStrip p.1 = p.1 := by
    intro p hp
    rcases mem_dictInsert hp with hk | hp2
    · rw [hk]
      exact ⟨pyLower_pyStrip_pyLower nm, pyStrip_idem (pyLower nm)⟩
    · exact hm p hp2
  cases expo with
  | none => exact hbase
  | some e =>
    simp only [addRecord]
    by_cases hg : e ≠ "" ∧ pyLower e ≠ pyStrip (pyLower nm)
    · rw [if_pos hg]
      intro p hp
      rcases mem_dictInsert hp with hk | hp2
      · rw [hk]
        exact ⟨pyLower_pyStrip_pyLower e, pyStrip_idem (pyLower e)⟩
      · exact hbase p hp2
    · rw [if_neg hg]
      exact hbase

theorem foldl_addRecord_keys_normalized :
    ∀ (exs : List (String × ExerciseRecord)) (m : List (String × String)),
      (∀ p ∈ m, pyLower p.1 = p.1 ∧ pyStrip p.1 = p.1) →
      ∀ p ∈ exs.foldl (fun m q => addRecord m q.1 q.2) m,
        pyLower p.1 = p.1 ∧ pyStrip p.1 = p.1
  | [], _, hm => hm
  | q :: rest, m, hm => by
    rw [List.foldl_cons]
    exact foldl_addRecord_keys_normalized rest (addRecord m q.1 q.2)
      (addRecord_keys_normalized hm q.1 q.2)

/-- **C10.** Every key of `name_to_id` is lower-cased and free of leading or
trailing whitespace, and every string stored in the exercise set (and hence in
the unmapped set) is free of leading or trailing whitespace; both invariants are
established at construction and preserved through the scan. -/
theorem C10_normalized_invariants (exs : List (String × ExerciseRecord))
    (d : List (String × String)) (rows : List (List (String × String))) (s : ScanState)
    (h : scanRows d rows = Except.ok s) :
    (∀ p ∈ buildNameToId exs, pyLower p.1 = p.1 ∧ pyStrip p.1 = p.1) ∧
    (∀ x ∈ s.csv_exercises, pyStrip x = x) ∧
    (∀ x ∈ s.unmapped_exercises, pyStrip x = x) := by
  refine ⟨foldl_addRecord_keys_normalized exs [] (by simp), ?_⟩
  have hinv : (∀ x ∈ s.csv_exercises, pyStrip x = x) ∧
      (∀ x ∈ s.unmapped_exercises, pyStrip x = x) := by
    refine scanRowsFrom_inv d
      (fun t => (∀ x ∈ t.csv_exercises, pyStrip x = x) ∧
        (∀ x ∈ t.unmapped_exercises, pyStrip x = x)) ?_ rows initState s h ?_
    · intro t row t' hpr hp
      rcases processRow_ok_shape hpr with ⟨_, exRaw, dateRaw, lr, hce, hcw, hun⟩
      constructor
      · intro x hx
        rw [hce] at hx
        rcases Finset.mem_insert.mp hx with rfl | hx
        · exact pyStrip_idem exRaw
        · exact hp.1 x hx
      · intro x hx
        rw [hun] at hx
        by_cases hck : containsKey d (pyLower (pyStrip exRaw)) = false
        · rw [if_pos hck] at hx
          rcases Finset.mem_insert.mp hx with rfl | hx
          · exact pyStrip_idem exRaw
          · exact hp.2 x hx
        · rw [if_neg hck] at hx
          exact hp.2 x hx
    · constructor <;> intro x hx <;> simp [initState] at hx
  exact hinv

theorem C10_normalized_invariants_witness :
    (scanRows [] [squatRow] = Except.ok squatState) ∧
    ((∀ p ∈ buildNameToId [("1", ⟨"Bench", none⟩)], pyLower p.1 = p.1 ∧ pyStrip p.1 = p.1) ∧
      (∀ x ∈ squatState.csv_exercises, pyStrip x = x) ∧
      (∀ x ∈ squatState.unmapped_exercises, pyStrip x = x)) :=
  ⟨by decide, C10_normalized_invariants [("1", ⟨"Bench", none⟩)] [] [squatRow]
    squatState (by decide)⟩

theorem lookupKey_zip_mem :
    ∀ (header : List String) (r : List String) {c v : String},
      lookupKey (header.zip r) c = some v → c ∈ header
  | [], r, c, v, h => by simp [lookupKey] at h
  | hcol :: hs, [], c, v, h => by simp [lookupKey] at h
  | hcol :: hs, x :: xs, c, v, h => by
    simp only [List.zip_cons_cons, lookupKey] at h
    by_cases hc : hcol = c
    · rw [hc]
      exact List.mem_cons_self c hs
    · rw [if_neg hc] at h
      exact List.mem_cons_of_mem _ (lookupKey_zip_mem hs xs h)

/-- **C7.** When the CSV header lacks one of the five required columns, scanning
fails with an error on the first data row instead of substituting a default, and
no scan result (hence no mapped/unmapped classification) is ever produced. -/
theorem C7_missing_column_fails (d : List (String × String)) (header : List String)
    (records : List (List String)) (c : String)
    (hc : c ∈ requiredCols) (hmiss : c ∉ header) (hne : records ≠ []) :
    (∃ e, scanRows d (dictReader header records) = Except.error e) ∧
    ∀ s, scanRows d (dictReader header records) ≠ Except.ok s := by
  obtain ⟨r, rs, rfl⟩ := List.exists_cons_of_ne_nil hne
  have hfail : ∀ s2, processRow d initState (header.zip r) ≠ Except.ok s2 := by
    intro s2 hok
    rcases processRow_ok_shape hok with ⟨hcols, _⟩
    rcases Option.isSome_iff_exists.mp (hcols c hc) with ⟨v, hv⟩
    exact hmiss (lookupKey_zip_mem header r hv)
  unfold scanRows dictReader
  rw [List.map_cons]
  constructor
  · cases hpr : processRow d initState (header.zip r) with
    | error e =>
      exact ⟨e, by simp only [scanRowsFrom, hpr]⟩
    | ok s2 => exact absurd hpr (hfail s2)
  · intro s hok
    cases hpr : processRow d initState (header.zip r) with
    | error e => simp [scanRowsFrom, hpr] at hok
    | ok s2 => exact absurd hpr (hfail s2)

theorem C7_missing_column_fails_witness :
    (("Reps" : String) ∈ requiredCols ∧ ("Reps" : String) ∉ ["Exercise", "Date"] ∧
      ([["Squat", "2024-01-01"]] : List (List String)) ≠ []) ∧
    (∃ e, scanRows [] (dictReader ["Exercise", "Date"] [["Squat", "2024-01-01"]])
        = Except.error e) ∧
    ∀ s, scanRows [] (dictReader ["Exercise", "Date"] [["Squat", "2024-01-01"]])
        ≠ Except.ok s :=
  ⟨⟨by decide, by decide, by decide⟩,
   C7_missing_column_fails [] ["Exercise", "Date"] [["Squat", "2024-01-01"]] "Reps"
     (by decide) (by decide) (by decide)⟩

theorem mem_take_map_exists {α : Type} {x : Line} {k : Nat} {l : List α} {g : α → Line}
    (h : x ∈ List.take k (List.map g l)) : ∃ a ∈ l, g a = x := by
  rcases List.mem_map.mp (List.take_subset k _ h) with ⟨a, ha, hg⟩
  exact ⟨a, ha, hg⟩

theorem filterMap_lineEntry_take_unmapped :
    ∀ (k : Nat) (l : List String),
      List.filterMap lineEntry (List.take k (List.map Line.unmappedEntry l)) = List.take k l
  | _, [] => by simp
  | 0, _ => by simp
  | (k + 1), a :: l => by
    simp only [List.map_cons, List.take_succ_cons, List.filterMap_cons, lineEntry]
    rw [filterMap_lineEntry_take_unmapped k l]

theorem filterMap_lineEntry_take_sample (d : List (String × String)) :
    ∀ (k : Nat) (l : List String),
      List.filterMap lineEntry (List.take k
        (List.map (fun ex => Line.sampleEntry ex (lookupKey d (pyLower ex))) l)) = []
  | _, [] => by simp
  | 0, _ => by simp
  | (k + 1), a :: l => by
    simp only [List.map_cons, List.take_succ_cons, List.filterMap_cons, lineEntry]
    exact filterMap_lineEntry_take_sample d k l

theorem filterMap_lineEntry_report (d : List (String × String)) (s : ScanState)
    (h1 : s.unmapped_exercises.card ≠ 0) :
    (report d s).1.filterMap lineEntry = (s.unmapped_exercises.sort (· ≤ ·)).take 20 := by
  by_cases h0 : s.csv_exercises.card = 0 <;>
    by_cases h2 : 20 < s.unmapped_exercises.card <;>
      by_cases h3 : 0 < mapped_count s <;>
        simp [report, lineEntry, h0, h1, h2, h3, List.filterMap_append,
          filterMap_lineEntry_take_unmapped, filterMap_lineEntry_take_sample,
          -String.le_iff_toList_le, -String.lt_iff_toList_lt]

theorem truncNotice_not_mem_take_unmapped {j k : Nat} {l : List String} :
    Line.truncNotice j ∉ List.take k (List.map Line.unmappedEntry l) := by
  intro h
  rcases mem_take_map_exists h with ⟨a, _, ha⟩
  exact Line.noConfusion ha

theorem truncNotice_not_mem_take_sample {j k : Nat} {d : List (String × String)}
    {l : List String} :
    Line.truncNotice j ∉ List.take k
      (List.map (fun ex => Line.sampleEntry ex (lookupKey d (pyLower ex))) l) := by
  intro h
  rcases mem_take_map_exists h with ⟨a, _, ha⟩
  exact Line.noConfusion ha

theorem truncNotice_mem_report {d : List (String × String)} {s : ScanState} {k : Nat}
    (hmem : Line.truncNotice k ∈ (report d s).1) :
    20 < s.unmapped_exercises.card ∧ k = s.unmapped_exercises.card - 20 := by
  by_cases h0 : s.csv_exercises.card = 0 <;>
    by_cases h1 : s.unmapped_exercises.card = 0 <;>
      by_cases h2 : 20 < s.unmapped_exercises.card <;>
        by_cases h3 : 0 < mapped_count s <;>
          simp [report, h0, h1, h2, h3,
            truncNotice_not_mem_take_unmapped, truncNotice_not_mem_take_sample,
            -String.le_iff_toList_le, -String.lt_iff_toList_lt] at hmem <;>
          exact ⟨h2, hmem⟩
theorem truncNotice_mem_report_of {d : List (String × String)} {s : ScanState}
    (h1 : s.unmapped_exercises.card ≠ 0) (h2 : 20 < s.unmapped_exercises.card) :
    Line.truncNotice (s.unmapped_exercises.card - 20) ∈ (report d s).1 := by
  by_cases h0 : s.csv_exercises.card = 0 <;>
    by_cases h3 : 0 < mapped_count s <;>
      simp [report, h0, h1, h2, h3,
        -String.le_iff_toList_le, -String.lt_iff_toList_lt]

/-- **C5.** With a non-empty unmapped set the report lists exactly the first 20
unmapped names in ascending (case-sensitive) order, shows the truncation notice
`... and (u - 20) more` exactly when more than 20 remain, and never shows a
truncation notice otherwise. -/
theorem C5_unmapped_listing (d : List (String × String)) (s : ScanState)
    (h : s.unmapped_exercises.Nonempty) :
    (report d s).1.filterMap lineEntry = (s.unmapped_exercises.sort (· ≤ ·)).take 20 ∧
    List.Sorted (· ≤ ·) ((report d s).1.filterMap lineEntry) ∧
    (Line.truncNotice (s.unmapped_exercises.card - 20) ∈ (report d s).1 ↔
      20 < s.unmapped_exercises.card) ∧
    (s.unmapped_exercises.card ≤ 20 → ∀ k, Line.truncNotice k ∉ (report d s).1) := by
  have h1 : s.unmapped_exercises.card ≠ 0 := h.card_pos.ne'
  have hfm := filterMap_lineEntry_report d s h1
  refine ⟨hfm, ?_, ?_, ?_⟩
  · rw [hfm]
    exact List.Pairwise.sublist (List.take_sublist 20 _) (Finset.sort_sorted (· ≤ ·) _)
  · constructor
    · intro hmem
      exact (truncNotice_mem_report hmem).1
    · intro h2
      exact truncNotice_mem_report_of h1 h2
  · intro hle k hmem
    have := (truncNotice_mem_report hmem).1
    omega

theorem C5_unmapped_listing_witness :
    manyState.unmapped_exercises.Nonempty ∧
    ((report [] manyState).1.filterMap lineEntry
        = (manyState.unmapped_exercises.sort (· ≤ ·)).take 20 ∧
      List.Sorted (· ≤ ·) ((report [] manyState).1.filterMap lineEntry) ∧
      (Line.truncNotice (manyState.unmapped_exercises.card - 20) ∈ (report [] manyState).1 ↔
        20 < manyState.unmapped_exercises.card) ∧
      (manyState.unmapped_exercises.card ≤ 20 →
        ∀ k, Line.truncNotice k ∉ (report [] manyState).1)) :=
  ⟨⟨"n01", by decide⟩, C5_unmapped_listing [] manyState ⟨"n01", by decide⟩⟩

/-- **C1 (counterexample).** For the two-spellings scenario (mapping file with
`Bench Press` only; CSV rows `bench press` and `Bench Press` on two dates) the
tool does NOT report 1 unique exercise: both literal spellings are stored, so
`len(csv_exercises)` is 2, not 1 as the claim states. -/
theorem C1_counterexample :
    (scanRows benchNameToId benchRows).map (fun s => s.csv_exercises.card)
      ≠ Except.ok 1 := by
  decide

/-- **C1 (amended).** In the two-spellings scenario the tool reports 2 unique
exercise names (the set keeps both literal spellings), 0 unmapped names (both
lower-case to the mapped key), 2 distinct workout dates, and `mapped_count = 2`. -/
theorem C1_two_spellings :
    (scanRows benchNameToId benchRows).map
      (fun s => (s.csv_exercises.card, s.unmapped_exercises.card,
        s.csv_workouts.length, mapped_count s))
      = Except.ok (2, 0, 2, 2) := by
  decide

/-- **C2.** With zero CSV data rows the scan yields the empty state, the report
stage fails (division by zero at the percentage computation), the mapped/unmapped
count lines `0/0` are still emitted before the failure, and no percentage line is
produced. -/
theorem C2_empty_csv_division_crash (name_to_id : List (String × String)) :
    scanRows name_to_id [] = Except.ok initState ∧
    report name_to_id initState =
      ([Line.foundExercises 0, Line.foundDates 0, Line.mappedCount 0 0,
        Line.unmappedCount 0 0, Line.allMapped, Line.totalUnique 0], true) ∧
    (∀ m t, Line.pctMapped m t ∉ (report name_to_id initState).1) ∧
    (∀ u t, Line.pctMissing u t ∉ (report name_to_id initState).1) := by
  refine ⟨rfl, rfl, ?_, ?_⟩ <;> intro a b <;>
    simp [report, initState, mapped_count]
